import Mathlib

/-!
Shallow embedding of `fast_transformers/builders/base.py`
(`BaseTransformerBuilder`): a builder instance is a bag of named
attributes; the class provides `get` (raising `NotImplementedError`) and
three construction entry points `from_dictionary`, `from_kwargs` and
`from_namespace` that all reduce to one sequential validate-and-set loop.

Attribute values are opaque to the algorithm; we model them by a small
concrete type `Value` with decidable equality so everything evaluates.
A builder instance (equivalently, the fresh instance produced by the
concrete class `cls()`) is an association list from attribute names to
values, mirroring a Python object's `__dict__`.
-/

/-- Opaque parameter values (enough shapes for the configurations the
spec mentions: booleans, integers, strings). -/
inductive Value where
  | bool (b : Bool)
  | int (n : Int)
  | str (s : String)
deriving DecidableEq, Repr

/-- Python truthiness of a `Value`, as used by `if strict:`. -/
def Value.truthy : Value → Bool
  | .bool b => b
  | .int n => n != 0
  | .str s => s != ""

/-- An attribute bag: a Python object's `__dict__` (also used for plain
dictionaries such as the `dictionary` and `kwargs` arguments). -/
abbrev Dict := List (String × Value)

/-- The keys of a dictionary / attribute bag, in iteration order. -/
def Dict.keys (d : Dict) : List String := d.map Prod.fst

/-- `getattr(obj, k)` restricted to the attribute bag: first binding of
`k`, or `none` when the attribute does not exist. -/
def getattr : Dict → String → Option Value
  | [], _ => none
  | (k0, v0) :: rest, k => if k0 = k then some v0 else getattr rest k

/-- `hasattr(obj, k)`: does the attribute exist? -/
def hasattr (b : Dict) (k : String) : Bool := (getattr b k).isSome

/-- `setattr(obj, k, v)` / `d[k] = v`: overwrite the binding of `k` if it
exists, otherwise add a fresh one. -/
def setattr : Dict → String → Value → Dict
  | [], k, v => [(k, v)]
  | (k0, v0) :: rest, k, v =>
    if k0 = k then (k, v) :: rest else (k0, v0) :: setattr rest k v

/-- `d.pop(k)` semantics for the binding of `k` (removal part): drop the
binding of `k` if present, keep everything else in order. -/
def eraseKey : Dict → String → Dict
  | [], _ => []
  | (k0, v0) :: rest, k => if k0 = k then rest else (k0, v0) :: eraseKey rest k

/-- Exceptions raised by the builder code: `ValueError(msg)` from
`from_dictionary` in strict mode, `NotImplementedError` from the base
`get`. -/
inductive PyError where
  | ValueError (msg : String)
  | NotImplementedError
deriving DecidableEq, Repr

/-- Python `repr` of an ordinary key string (no escaping needed for
attribute-like names): the string wrapped in single quotes. -/
def pyRepr (s : String) : String := "\x27" ++ s ++ "\x27"

/-- The message of the `ValueError` raised on an unknown parameter:
`("The transformer builder has no parameter \x7b!r\x7d").format(k)`. -/
def noParamMsg (k : String) : String :=
  "The transformer builder has no parameter " ++ pyRepr k

/-- The `for k, v in dictionary.items():` loop of
`BaseTransformerBuilder.from_dictionary`, acting on the local `builder`.
On the strict-mode `raise` the error also carries the loop's local
`builder` as it stood at the raise (the caller discards it, exactly as
the Python local dies when the exception propagates). -/
def bindLoop (strict : Bool) : Dict → List (String × Value) → Except (PyError × Dict) Dict
  | builder, [] => .ok builder
  | builder, (k, v) :: rest =>
    if ¬ hasattr builder k then
      if strict then .error (.ValueError (noParamMsg k), builder)
      else bindLoop strict builder rest
    else bindLoop strict (setattr builder k v) rest

/-- `BaseTransformerBuilder.from_dictionary(dictionary, strict=True)`.
`cls` is the fresh instance `cls()` of the concrete builder class: its
declared attributes at their defaults. -/
def from_dictionary (cls : Dict) (dictionary : List (String × Value))
    (strict : Bool := true) : Except PyError Dict :=
  match bindLoop strict cls dictionary with
  | .ok b => .ok b
  | .error e => .error e.1

/-- `BaseTransformerBuilder.from_kwargs(**kwargs)`:
`strict = kwargs.pop("strict", True)` then
`cls.from_dictionary(kwargs, strict=strict)`. -/
def from_kwargs (cls : Dict) (kwargs : Dict) : Except PyError Dict :=
  let strict := (getattr kwargs "strict").getD (Value.bool true)
  from_dictionary cls (eraseKey kwargs "strict") strict.truthy

/-- An argparse-style namespace: a bundle of named fields. -/
structure Namespace where
  fields : Dict
deriving DecidableEq, Repr

/-- `vars(args)`: the namespace's field mapping. -/
def varsOf (args : Namespace) : Dict := args.fields

/-- `BaseTransformerBuilder.from_namespace(args, strict=False)`:
`cls.from_dictionary(vars(args), strict=strict)`. -/
def from_namespace (cls : Dict) (args : Namespace)
    (strict : Bool := false) : Except PyError Dict :=
  from_dictionary cls (varsOf args) strict

/-- `BaseTransformerBuilder.get(self)`: `raise NotImplementedError()`.
Inherited unchanged by any concrete builder that does not override it. -/
def BaseTransformerBuilder.get (self : Dict) : Except PyError Value :=
  .error .NotImplementedError

deriving instance DecidableEq for Except

/-! ### Basic facts about the attribute bag -/

/-- Reading after writing: `setattr` changes exactly the binding of `k`. -/
theorem getattr_setattr (b : Dict) (k : String) (v : Value) (k' : String) :
    getattr (setattr b k v) k' = if k = k' then some v else getattr b k' := by
  induction b with
  | nil =>
    by_cases h : k = k' <;> simp [setattr, getattr, h]
  | cons hd tl ih =>
    obtain ⟨k0, v0⟩ := hd
    by_cases h0 : k0 = k
    · subst h0
      by_cases h : k0 = k' <;> simp [setattr, getattr, h]
    · by_cases h : k0 = k'
      · subst h
        simp [setattr, getattr, h0, Ne.symm h0]
      · simp [setattr, getattr, h0, h, ih]

/-- `setattr` changes attribute existence only for `k` itself. -/
theorem hasattr_setattr (b : Dict) (k : String) (v : Value) (k' : String) :
    hasattr (setattr b k v) k' = if k = k' then true else hasattr b k' := by
  by_cases h : k = k' <;> simp [hasattr, getattr_setattr, h]

/-- Writing an existing attribute preserves the attribute set. -/
theorem hasattr_setattr_of_hasattr (b : Dict) (k : String) (v : Value)
    (h : hasattr b k = true) (k' : String) :
    hasattr (setattr b k v) k' = hasattr b k' := by
  rw [hasattr_setattr]
  by_cases hk : k = k'
  · subst hk; simp [h]
  · simp [hk]

/-- After erasing a key from a dictionary with pairwise-distinct keys,
the key is gone. -/
theorem eraseKey_not_mem_keys (d : Dict) (k : String)
    (hnd : d.keys.Nodup) : k ∉ (eraseKey d k).keys := by
  induction d with
  | nil => simp [eraseKey, Dict.keys]
  | cons hd tl ih =>
    obtain ⟨k0, v0⟩ := hd
    simp only [Dict.keys, List.map_cons, List.nodup_cons] at hnd
    by_cases h0 : k0 = k
    · subst h0
      simpa [eraseKey, Dict.keys] using hnd.1
    · simp only [eraseKey, h0, if_false, Dict.keys, List.map_cons, List.mem_cons]
      rintro (h | h)
      · exact h0 h.symm
      · exact ih hnd.2 h

/-- Erasing a key leaves every other binding in place. -/
theorem getattr_eraseKey_ne (d : Dict) (k k' : String) (h : k' ≠ k) :
    getattr (eraseKey d k) k' = getattr d k' := by
  induction d with
  | nil => simp [eraseKey]
  | cons hd tl ih =>
    obtain ⟨k0, v0⟩ := hd
    by_cases h0 : k0 = k
    · subst h0
      simp [eraseKey, getattr, Ne.symm h]
    · simp [eraseKey, getattr, h0, ih]

/-! ### The binding loop -/

/-- The effect of the loop in lenient mode (and of any successful run):
sequentially overwrite each recognized key, skip the rest. This is the
loop's functional core, separated out for the lemmas below. -/
def applyLenient (b : Dict) : List (String × Value) → Dict
  | [] => b
  | (k, v) :: rest =>
    if hasattr b k then applyLenient (setattr b k v) rest
    else applyLenient b rest

/-- `applyLenient` never adds or removes attributes. -/
theorem hasattr_applyLenient (entries : List (String × Value)) (b : Dict)
    (k : String) : hasattr (applyLenient b entries) k = hasattr b k := by
  induction entries generalizing b with
  | nil => simp [applyLenient]
  | cons hd tl ih =>
    obtain ⟨k0, v0⟩ := hd
    by_cases h0 : hasattr b k0
    · simp [applyLenient, h0, ih, hasattr_setattr_of_hasattr b k0 v0 h0]
    · simp [applyLenient, h0, ih]

/-- Keys not named in the entries are untouched by `applyLenient`. -/
theorem getattr_applyLenient_not_mem (entries : List (String × Value))
    (b : Dict) (k : String) (h : k ∉ entries.map Prod.fst) :
    getattr (applyLenient b entries) k = getattr b k := by
  induction entries generalizing b with
  | nil => simp [applyLenient]
  | cons hd tl ih =>
    obtain ⟨k0, v0⟩ := hd
    simp only [List.map_cons, List.mem_cons] at h
    push_neg at h
    by_cases h0 : hasattr b k0
    · rw [applyLenient, if_pos h0, ih _ h.2, getattr_setattr,
        if_neg (fun hh => h.1 hh.symm)]
    · rw [applyLenient, if_neg h0, ih _ h.2]

/-- With pairwise-distinct keys, each recognized entry ends up bound to
its value. -/
theorem getattr_applyLenient_mem (entries : List (String × Value))
    (b : Dict) (k : String) (v : Value)
    (hnd : (entries.map Prod.fst).Nodup)
    (hmem : (k, v) ∈ entries) (hk : hasattr b k = true) :
    getattr (applyLenient b entries) k = some v := by
  induction entries generalizing b with
  | nil => cases hmem
  | cons hd tl ih =>
    obtain ⟨k0, v0⟩ := hd
    simp only [List.map_cons, List.nodup_cons] at hnd
    rcases List.mem_cons.mp hmem with heq | htail
    · obtain ⟨hk1, hv1⟩ := Prod.mk.injEq .. ▸ heq
      subst hk1; subst hv1
      rw [applyLenient, if_pos hk,
        getattr_applyLenient_not_mem _ _ _ hnd.1, getattr_setattr, if_pos rfl]
    · have hkk0 : k0 ≠ k := fun h => hnd.1 (h ▸ List.mem_map_of_mem Prod.fst htail)
      by_cases h0 : hasattr b k0
      · rw [applyLenient, if_pos h0]
        exact ih _ hnd.2 htail (by rw [hasattr_setattr_of_hasattr _ _ _ h0]; exact hk)
      · rw [applyLenient, if_neg h0]
        exact ih _ hnd.2 htail hk

/-- In lenient mode the loop always succeeds and computes
`applyLenient`. -/
theorem bindLoop_false (entries : List (String × Value)) (b : Dict) :
    bindLoop false b entries = .ok (applyLenient b entries) := by
  induction entries generalizing b with
  | nil => rfl
  | cons hd tl ih =>
    obtain ⟨k, v⟩ := hd
    by_cases h : hasattr b k
    · simp [bindLoop, applyLenient, h, ih]
    · simp [bindLoop, applyLenient, h, ih]

/-- Whenever the loop succeeds (in either mode), the resulting builder is
`applyLenient` of the entries. -/
theorem bindLoop_ok_eq (strict : Bool) (entries : List (String × Value))
    (b c : Dict) (h : bindLoop strict b entries = .ok c) :
    c = applyLenient b entries := by
  induction entries generalizing b with
  | nil => simpa [bindLoop, applyLenient] using h.symm
  | cons hd tl ih =>
    obtain ⟨k, v⟩ := hd
    by_cases hk : hasattr b k
    · rw [applyLenient, if_pos hk]
      exact ih _ (by simpa [bindLoop, hk] using h)
    · rw [applyLenient, if_neg hk]
      rw [bindLoop, if_pos (by simp [hk])] at h
      cases strict with
      | false => exact ih _ (by simpa using h)
      | true => simp at h

/-- If every key is a recognized attribute, the strict loop succeeds and
agrees with the lenient computation. -/
theorem bindLoop_true_of_known (entries : List (String × Value)) (b : Dict)
    (hknown : ∀ kv ∈ entries, hasattr b kv.1 = true) :
    bindLoop true b entries = .ok (applyLenient b entries) := by
  induction entries generalizing b with
  | nil => rfl
  | cons hd tl ih =>
    obtain ⟨k, v⟩ := hd
    have hk : hasattr b k = true := hknown (k, v) (List.mem_cons_self _ _)
    rw [bindLoop, if_neg (by simp [hk]), applyLenient, if_pos hk]
    exact ih _ fun kv hkv => by
      rw [hasattr_setattr_of_hasattr _ _ _ hk]
      exact hknown kv (List.mem_cons_of_mem _ hkv)

/-- Strict mode fails exactly at the first unrecognized key, with the
loop's local builder holding every assignment made before the failure. -/
theorem bindLoop_true_firstFail (pre : List (String × Value)) (k : String)
    (v : Value) (post : List (String × Value)) (b : Dict)
    (hpre : ∀ kv ∈ pre, hasattr b kv.1 = true) (hk : hasattr b k = false) :
    bindLoop true b (pre ++ (k, v) :: post) =
      .error (.ValueError (noParamMsg k), applyLenient b pre) := by
  induction pre generalizing b with
  | nil => simp [bindLoop, applyLenient, hk]
  | cons hd tl ih =>
    obtain ⟨k0, v0⟩ := hd
    have hk0 : hasattr b k0 = true := hpre (k0, v0) (List.mem_cons_self _ _)
    rw [List.cons_append, bindLoop, if_neg (by simp [hk0]),
      applyLenient, if_pos hk0]
    exact ih _ (fun kv hkv => by
        rw [hasattr_setattr_of_hasattr _ _ _ hk0]
        exact hpre kv (List.mem_cons_of_mem _ hkv))
      (by rw [hasattr_setattr_of_hasattr _ _ _ hk0]; exact hk)

/-- If some entry has an unrecognized key, the strict loop raises the
unknown-parameter error for one such key. -/
theorem bindLoop_true_exists_fail (entries : List (String × Value))
    (b : Dict) (hbad : ∃ kv ∈ entries, hasattr b kv.1 = false) :
    ∃ k v bf, (k, v) ∈ entries ∧ hasattr b k = false ∧
      bindLoop true b entries = .error (.ValueError (noParamMsg k), bf) := by
  induction entries generalizing b with
  | nil => simp at hbad
  | cons hd tl ih =>
    obtain ⟨k0, v0⟩ := hd
    by_cases h0 : hasattr b k0
    · obtain ⟨kv, hkv, hbadkv⟩ := hbad
      have htl : ∃ kv ∈ tl, hasattr b kv.1 = false := by
        rcases List.mem_cons.mp hkv with heq | htail
        · rw [heq] at hbadkv; rw [hbadkv] at h0; cases h0
        · exact ⟨kv, htail, hbadkv⟩
      obtain ⟨k, v, bf, hmem, hfail, hrun⟩ := ih (setattr b k0 v0) (by
        obtain ⟨kv, hkv2, hb⟩ := htl
        exact ⟨kv, hkv2, by rw [hasattr_setattr_of_hasattr _ _ _ h0]; exact hb⟩)
      refine ⟨k, v, bf, List.mem_cons_of_mem _ hmem, ?_, ?_⟩
      · rw [← hasattr_setattr_of_hasattr b k0 v0 h0]; exact hfail
      · rw [bindLoop, if_neg (by simp [h0])]; exact hrun
    · exact ⟨k0, v0, b, List.mem_cons_self _ _, by simpa using h0,
        by simp [bindLoop, h0]⟩

/-- When every key before the failure point is recognized, the lenient
computation is a plain left fold of `setattr`: every entry was assigned,
in order. -/
theorem applyLenient_eq_foldl (pre : List (String × Value)) (b : Dict)
    (hpre : ∀ kv ∈ pre, hasattr b kv.1 = true) :
    applyLenient b pre = pre.foldl (fun acc kv => setattr acc kv.1 kv.2) b := by
  induction pre generalizing b with
  | nil => rfl
  | cons hd tl ih =>
    obtain ⟨k0, v0⟩ := hd
    have hk0 : hasattr b k0 = true := hpre (k0, v0) (List.mem_cons_self _ _)
    rw [applyLenient, if_pos hk0, List.foldl_cons]
    exact ih _ fun kv hkv => by
      rw [hasattr_setattr_of_hasattr _ _ _ hk0]
      exact hpre kv (List.mem_cons_of_mem _ hkv)

/-- `from_dictionary` succeeds exactly when the loop does, with the same
builder. -/
theorem from_dictionary_ok (cls : Dict) (d : List (String × Value))
    (strict : Bool) (b : Dict) :
    from_dictionary cls d strict = .ok b ↔ bindLoop strict cls d = .ok b := by
  unfold from_dictionary
  cases h : bindLoop strict cls d <;> simp [h]

/-- `from_dictionary` propagates the loop's exception (dropping the dead
local builder). -/
theorem from_dictionary_error (cls : Dict) (d : List (String × Value))
    (strict : Bool) (e : PyError) (bf : Dict)
    (h : bindLoop strict cls d = .error (e, bf)) :
    from_dictionary cls d strict = .error e := by
  unfold from_dictionary
  rw [h]

/-! ### Mutable-store embedding

To state frame properties (what the entry points do to caller-visible
dictionaries) we also give the same code a state-passing embedding: a
`Store` is a heap of dictionary objects addressed by allocation index,
and every dictionary operation of the source goes through it. -/

/-- A heap of dictionary objects, addressed by allocation order. -/
abbrev Store := List Dict

/-- Dereference a dictionary address. -/
def Store.read : Store → Nat → Dict
  | [], _ => []
  | d :: _, 0 => d
  | _ :: rest, n + 1 => Store.read rest n

/-- Overwrite the dictionary object at an address. -/
def Store.write : Store → Nat → Dict → Store
  | [], _, _ => []
  | _ :: rest, 0, d => d :: rest
  | d0 :: rest, n + 1, d => d0 :: Store.write rest n d

/-- Allocate a fresh dictionary object, returning its address. -/
def Store.alloc (σ : Store) (d : Dict) : Nat × Store := (σ.length, σ ++ [d])

/-- The `from_dictionary` loop with the store threaded through each
iteration: the body reads the entries and mutates only the local
`builder` value, so the store rides along. -/
def bindLoopSt (strict : Bool) :
    Dict → List (String × Value) → Store → Except (PyError × Dict) Dict × Store
  | builder, [], σ => (.ok builder, σ)
  | builder, (k, v) :: rest, σ =>
    if ¬ hasattr builder k then
      if strict then (.error (.ValueError (noParamMsg k), builder), σ)
      else bindLoopSt strict builder rest σ
    else bindLoopSt strict (setattr builder k v) rest σ

/-- `from_dictionary` against a store: the `dictionary` argument is an
address into the caller's heap; its items are read and the loop runs. -/
def from_dictionary_st (cls : Dict) (σ : Store) (dictAddr : Nat)
    (strict : Bool := true) : Except PyError Dict × Store :=
  let r := bindLoopSt strict cls (Store.read σ dictAddr) σ
  (match r.1 with | .ok b => .ok b | .error e => .error e.1, r.2)

/-- `from_kwargs` against a store. Python materializes `**kwargs` as a
fresh dictionary owned by the call; `kwargs.pop("strict", True)` then
mutates that fresh object in place before delegation. -/
def from_kwargs_st (cls : Dict) (σ : Store) (kwargs : Dict) :
    Except PyError Dict × Store :=
  let a := Store.alloc σ kwargs
  let d := Store.read a.2 a.1
  let strict := (getattr d "strict").getD (Value.bool true)
  let σ2 := Store.write a.2 a.1 (eraseKey d "strict")
  from_dictionary_st cls σ2 a.1 strict.truthy

/-- The loop body contains no store mutation, so the store survives the
loop unchanged in both modes, also on the failing runs. -/
theorem bindLoopSt_store (strict : Bool) (entries : List (String × Value))
    (b : Dict) (σ : Store) : (bindLoopSt strict b entries σ).2 = σ := by
  induction entries generalizing b with
  | nil => rfl
  | cons hd tl ih =>
    obtain ⟨k, v⟩ := hd
    by_cases h : hasattr b k
    · simp [bindLoopSt, h, ih]
    · cases strict <;> simp [bindLoopSt, h, ih]

/-- The store-threaded loop computes the same answer as the pure one. -/
theorem bindLoopSt_fst (strict : Bool) (entries : List (String × Value))
    (b : Dict) (σ : Store) :
    (bindLoopSt strict b entries σ).1 = bindLoop strict b entries := by
  induction entries generalizing b with
  | nil => rfl
  | cons hd tl ih =>
    obtain ⟨k, v⟩ := hd
    by_cases h : hasattr b k
    · simp [bindLoopSt, bindLoop, h, ih]
    · cases strict <;> simp [bindLoopSt, bindLoop, h, ih]

/-- Reading below the end of the heap is unaffected by appending a fresh
object. -/
theorem Store.read_append_lt (σ : Store) (d : Dict) (j : Nat)
    (h : j < σ.length) : Store.read (σ ++ [d]) j = Store.read σ j := by
  induction σ generalizing j with
  | nil => cases h
  | cons d0 rest ih =>
    cases j with
    | zero => rfl
    | succ j => exact ih j (Nat.lt_of_succ_lt_succ h)

/-- Writing one address leaves every other address intact. -/
theorem Store.read_write_ne (σ : Store) (i j : Nat) (d : Dict)
    (h : i ≠ j) : Store.read (Store.write σ i d) j = Store.read σ j := by
  induction σ generalizing i j with
  | nil => rfl
  | cons d0 rest ih =>
    cases i with
    | zero =>
      cases j with
      | zero => exact absurd rfl h
      | succ j => rfl
    | succ i =>
      cases j with
      | zero => rfl
      | succ j => exact ih i j fun hh => h (by rw [hh])

/-- If an attribute does not exist, reading it yields nothing. -/
theorem getattr_eq_none_of_not_hasattr (b : Dict) (k : String)
    (h : hasattr b k = false) : getattr b k = none := by
  cases hx : getattr b k with
  | none => rfl
  | some v => unfold hasattr at h; rw [hx] at h; cases h

/-! ### Claim theorems -/

/-- A concrete builder used to witness the claims: declared attributes
`depth` and `width` with defaults `1` and `8`. -/
def exampleBuilder : Dict := [("depth", Value.int 1), ("width", Value.int 8)]

/-- C1: for every mapping whose keys are all declared attributes of a
concrete builder, `from_dictionary(mapping, strict=true)` succeeds and
returns a builder whose attribute for each mapping key equals the mapped
value, while attributes not named in the mapping keep their
freshly-constructed default values. -/
theorem c1_known_mapping_round_trip (cls : Dict) (m : List (String × Value))
    (hnd : (m.map Prod.fst).Nodup)
    (hknown : ∀ kv ∈ m, hasattr cls kv.1 = true) :
    ∃ b, from_dictionary cls m true = .ok b ∧
      (∀ kv ∈ m, getattr b kv.1 = some kv.2) ∧
      (∀ k, k ∉ m.map Prod.fst → getattr b k = getattr cls k) := by
  refine ⟨applyLenient cls m, ?_, ?_, ?_⟩
  · rw [from_dictionary_ok]
    exact bindLoop_true_of_known m cls hknown
  · rintro ⟨k, v⟩ hkv
    exact getattr_applyLenient_mem m cls k v hnd hkv (hknown (k, v) hkv)
  · intro k hk
    exact getattr_applyLenient_not_mem m cls k hk

/-- C1 witness: with defaults `depth = 1`, `width = 8`, binding
`depth = 6` strictly yields `depth = 6` and keeps `width = 8`. -/
theorem c1_witness :
    ((([("depth", Value.int 6)] : List (String × Value)).map Prod.fst).Nodup
      ∧ ∀ kv ∈ ([("depth", Value.int 6)] : List (String × Value)),
          hasattr exampleBuilder kv.1 = true)
    ∧ (∃ b, from_dictionary exampleBuilder [("depth", Value.int 6)] true = .ok b
        ∧ (∀ kv ∈ ([("depth", Value.int 6)] : List (String × Value)),
            getattr b kv.1 = some kv.2)
        ∧ (∀ k, k ∉ ([("depth", Value.int 6)] : List (String × Value)).map Prod.fst
            → getattr b k = getattr exampleBuilder k)) :=
  ⟨⟨by decide, by decide⟩,
    c1_known_mapping_round_trip exampleBuilder [("depth", Value.int 6)]
      (by decide) (by decide)⟩

/-- C2: a mapping with at least one unrecognized key makes
`from_dictionary(·, strict=true)` fail with the unknown-parameter
`ValueError` naming such a key, while `from_dictionary(·, strict=false)`
succeeds, applies every recognized key and leaves every unknown key
unapplied. -/
theorem c2_unknown_key_strict_vs_lenient (cls : Dict)
    (m : List (String × Value)) (hnd : (m.map Prod.fst).Nodup)
    (hbad : ∃ kv ∈ m, hasattr cls kv.1 = false) :
    (∃ k v, (k, v) ∈ m ∧ hasattr cls k = false ∧
      from_dictionary cls m true = .error (.ValueError (noParamMsg k))) ∧
    (∃ b, from_dictionary cls m false = .ok b ∧
      (∀ kv ∈ m, hasattr cls kv.1 = true → getattr b kv.1 = some kv.2) ∧
      (∀ k, hasattr cls k = false → getattr b k = none)) := by
  constructor
  · obtain ⟨k, v, bf, hmem, hfail, hrun⟩ := bindLoop_true_exists_fail m cls hbad
    exact ⟨k, v, hmem, hfail, from_dictionary_error cls m true _ bf hrun⟩
  · refine ⟨applyLenient cls m, ?_, ?_, ?_⟩
    · rw [from_dictionary_ok]
      exact bindLoop_false m cls
    · rintro ⟨k, v⟩ hkv hkn
      exact getattr_applyLenient_mem m cls k v hnd hkv hkn
    · intro k hk
      apply getattr_eq_none_of_not_hasattr
      rw [hasattr_applyLenient]
      exact hk

/-- C2 witness: `depth` is declared, `heads` is not; strict binding of
both fails naming `heads`, lenient binding succeeds. -/
theorem c2_witness :
    ((([("depth", Value.int 6), ("heads", Value.int 4)]
        : List (String × Value)).map Prod.fst).Nodup
      ∧ ∃ kv ∈ ([("depth", Value.int 6), ("heads", Value.int 4)]
          : List (String × Value)), hasattr exampleBuilder kv.1 = false)
    ∧ ((∃ k v, (k, v) ∈ ([("depth", Value.int 6), ("heads", Value.int 4)]
          : List (String × Value)) ∧ hasattr exampleBuilder k = false ∧
          from_dictionary exampleBuilder
            [("depth", Value.int 6), ("heads", Value.int 4)] true
            = .error (.ValueError (noParamMsg k))) ∧
      (∃ b, from_dictionary exampleBuilder
          [("depth", Value.int 6), ("heads", Value.int 4)] false = .ok b ∧
        (∀ kv ∈ ([("depth", Value.int 6), ("heads", Value.int 4)]
            : List (String × Value)),
          hasattr exampleBuilder kv.1 = true → getattr b kv.1 = some kv.2) ∧
        (∀ k, hasattr exampleBuilder k = false → getattr b k = none))) :=
  ⟨⟨by decide, by decide⟩,
    c2_unknown_key_strict_vs_lenient exampleBuilder
      [("depth", Value.int 6), ("heads", Value.int 4)] (by decide) (by decide)⟩

/-- C3: in strict mode, `from_dictionary` fails immediately with the
unknown-parameter `ValueError` naming the first unrecognized key, and
the outcome is independent of every entry after that key (no further
assignment is attempted for the remaining iteration). -/
theorem c3_strict_fails_fast (cls : Dict) (pre : List (String × Value))
    (k : String) (v : Value) (post post' : List (String × Value))
    (hpre : ∀ kv ∈ pre, hasattr cls kv.1 = true)
    (hk : hasattr cls k = false) :
    from_dictionary cls (pre ++ (k, v) :: post) true
      = .error (.ValueError (noParamMsg k)) ∧
    from_dictionary cls (pre ++ (k, v) :: post) true
      = from_dictionary cls (pre ++ (k, v) :: post') true := by
  have h1 := from_dictionary_error cls (pre ++ (k, v) :: post) true _ _
    (bindLoop_true_firstFail pre k v post cls hpre hk)
  have h2 := from_dictionary_error cls (pre ++ (k, v) :: post') true _ _
    (bindLoop_true_firstFail pre k v post' cls hpre hk)
  exact ⟨h1, by rw [h1, h2]⟩

/-- C3 witness: binding `depth = 6, heads = 4, width = 9` strictly fails
naming `heads`, with the same outcome as if `width = 9` were absent. -/
theorem c3_witness :
    ((∀ kv ∈ ([("depth", Value.int 6)] : List (String × Value)),
        hasattr exampleBuilder kv.1 = true)
      ∧ hasattr exampleBuilder "heads" = false)
    ∧ (from_dictionary exampleBuilder
        ([("depth", Value.int 6)] ++ ("heads", Value.int 4)
          :: [("width", Value.int 9)]) true
        = .error (.ValueError (noParamMsg "heads")) ∧
      from_dictionary exampleBuilder
        ([("depth", Value.int 6)] ++ ("heads", Value.int 4)
          :: [("width", Value.int 9)]) true
        = from_dictionary exampleBuilder
            ([("depth", Value.int 6)] ++ ("heads", Value.int 4) :: []) true) :=
  ⟨⟨by decide, by decide⟩,
    c3_strict_fails_fast exampleBuilder [("depth", Value.int 6)] "heads"
      (Value.int 4) [("width", Value.int 9)] [] (by decide) (by decide)⟩

/-- C4: `from_kwargs` removes the reserved key `strict` (defaulting to
true when absent) and delegates the remaining keyword set to
`from_dictionary` with that strict value; the `strict` key is never
validated as a parameter name and never assigned as an attribute, and in
particular `from_kwargs(strict=False, unknown_key=1)` equals
`from_dictionary(\x7b"unknown_key": 1\x7d, strict=False)`. -/
theorem c4_from_kwargs_delegates (cls : Dict) (kwargs : Dict)
    (hnd : kwargs.keys.Nodup) :
    from_kwargs cls kwargs
      = from_dictionary cls (eraseKey kwargs "strict")
          ((getattr kwargs "strict").getD (Value.bool true)).truthy ∧
    (∀ b, from_kwargs cls kwargs = .ok b →
      getattr b "strict" = getattr cls "strict") ∧
    from_kwargs cls [("strict", Value.bool false), ("unknown_key", Value.int 1)]
      = from_dictionary cls [("unknown_key", Value.int 1)] false := by
  refine ⟨rfl, ?_, rfl⟩
  intro b hb
  simp only [from_kwargs] at hb
  rw [from_dictionary_ok] at hb
  rw [bindLoop_ok_eq _ _ _ _ hb]
  apply getattr_applyLenient_not_mem
  simpa [Dict.keys] using eraseKey_not_mem_keys kwargs "strict" hnd

/-- C4 witness: on `strict=False, unknown_key=1` the delegation equality
holds concretely and `strict` is not assigned. -/
theorem c4_witness :
    (Dict.keys [("strict", Value.bool false), ("unknown_key", Value.int 1)]).Nodup
    ∧ (from_kwargs exampleBuilder
        [("strict", Value.bool false), ("unknown_key", Value.int 1)]
        = from_dictionary exampleBuilder
            (eraseKey [("strict", Value.bool false), ("unknown_key", Value.int 1)]
              "strict")
            ((getattr [("strict", Value.bool false), ("unknown_key", Value.int 1)]
              "strict").getD (Value.bool true)).truthy ∧
      (∀ b, from_kwargs exampleBuilder
          [("strict", Value.bool false), ("unknown_key", Value.int 1)] = .ok b →
        getattr b "strict" = getattr exampleBuilder "strict") ∧
      from_kwargs exampleBuilder
        [("strict", Value.bool false), ("unknown_key", Value.int 1)]
        = from_dictionary exampleBuilder [("unknown_key", Value.int 1)] false) :=
  ⟨by decide,
    c4_from_kwargs_delegates exampleBuilder
      [("strict", Value.bool false), ("unknown_key", Value.int 1)] (by decide)⟩

/-- C5: on a namespace with fields foreign to the builder,
`from_namespace` with no explicit strict argument succeeds (strict
defaults to false on this entry point), while `from_namespace(·,
strict=true)` fails with the unknown-parameter `ValueError`. -/
theorem c5_from_namespace_default_lenient (cls : Dict) (args : Namespace)
    (hbad : ∃ kv ∈ varsOf args, hasattr cls kv.1 = false) :
    (∃ b, from_namespace cls args = .ok b) ∧
    (∃ k, hasattr cls k = false ∧ (∃ v, (k, v) ∈ varsOf args) ∧
      from_namespace cls args true = .error (.ValueError (noParamMsg k))) := by
  constructor
  · refine ⟨applyLenient cls (varsOf args), ?_⟩
    unfold from_namespace
    rw [from_dictionary_ok]
    exact bindLoop_false _ _
  · obtain ⟨k, v, bf, hmem, hfail, hrun⟩ :=
      bindLoop_true_exists_fail (varsOf args) cls hbad
    refine ⟨k, hfail, ⟨v, hmem⟩, ?_⟩
    unfold from_namespace
    exact from_dictionary_error _ _ _ _ _ hrun

/-- C5 witness: a namespace carrying a foreign field `foreign` binds
leniently by default and fails under `strict=true`. -/
theorem c5_witness :
    (∃ kv ∈ varsOf ⟨[("foreign", Value.int 3), ("width", Value.int 2)]⟩,
      hasattr exampleBuilder kv.1 = false)
    ∧ ((∃ b, from_namespace exampleBuilder
          ⟨[("foreign", Value.int 3), ("width", Value.int 2)]⟩ = .ok b) ∧
      (∃ k, hasattr exampleBuilder k = false ∧
        (∃ v, (k, v) ∈ varsOf ⟨[("foreign", Value.int 3), ("width", Value.int 2)]⟩) ∧
        from_namespace exampleBuilder
          ⟨[("foreign", Value.int 3), ("width", Value.int 2)]⟩ true
          = .error (.ValueError (noParamMsg k)))) :=
  ⟨by decide,
    c5_from_namespace_default_lenient exampleBuilder
      ⟨[("foreign", Value.int 3), ("width", Value.int 2)]⟩ (by decide)⟩

/-- C6: `get` on the abstract base (inherited unchanged by any concrete
builder that does not override it) fails with `NotImplementedError`,
whatever the builder state: the base carries no construction logic. -/
theorem c6_get_not_implemented (self : Dict) :
    BaseTransformerBuilder.get self = .error PyError.NotImplementedError := rfl

/-- C7: a builder may be bound more than once from multiple
configuration sources — running the binding loop a second time on the
builder produced by a first `from_dictionary` — and the later binding
overwrites the earlier values for overlapping keys while the values for
disjoint keys accumulate on the same builder. -/
theorem c7_rebinding_overwrites_and_accumulates (cls : Dict)
    (m1 m2 : List (String × Value))
    (hnd1 : (m1.map Prod.fst).Nodup) (hnd2 : (m2.map Prod.fst).Nodup)
    (hk1 : ∀ kv ∈ m1, hasattr cls kv.1 = true)
    (hk2 : ∀ kv ∈ m2, hasattr cls kv.1 = true) :
    ∃ b1 b2, from_dictionary cls m1 true = .ok b1 ∧
      bindLoop true b1 m2 = .ok b2 ∧
      (∀ kv ∈ m2, getattr b2 kv.1 = some kv.2) ∧
      (∀ kv ∈ m1, kv.1 ∉ m2.map Prod.fst → getattr b2 kv.1 = some kv.2) ∧
      (∀ k, k ∉ m1.map Prod.fst → k ∉ m2.map Prod.fst →
        getattr b2 k = getattr cls k) := by
  refine ⟨applyLenient cls m1, applyLenient (applyLenient cls m1) m2,
    ?_, ?_, ?_, ?_, ?_⟩
  · rw [from_dictionary_ok]
    exact bindLoop_true_of_known m1 cls hk1
  · apply bindLoop_true_of_known
    intro kv hkv
    rw [hasattr_applyLenient]
    exact hk2 kv hkv
  · rintro ⟨k, v⟩ hkv
    exact getattr_applyLenient_mem m2 _ k v hnd2 hkv
      (by rw [hasattr_applyLenient]; exact hk2 (k, v) hkv)
  · rintro ⟨k, v⟩ hkv hnot
    rw [getattr_applyLenient_not_mem m2 _ k hnot]
    exact getattr_applyLenient_mem m1 cls k v hnd1 hkv (hk1 (k, v) hkv)
  · intro k h1 h2
    rw [getattr_applyLenient_not_mem m2 _ k h2,
      getattr_applyLenient_not_mem m1 cls k h1]

/-- C7 witness: bind `depth = 6, width = 3`, then rebind
`depth = 7`: `depth` is overwritten, `width` accumulates. -/
theorem c7_witness :
    ((([("depth", Value.int 6), ("width", Value.int 3)]
        : List (String × Value)).map Prod.fst).Nodup
      ∧ (([("depth", Value.int 7)] : List (String × Value)).map Prod.fst).Nodup
      ∧ (∀ kv ∈ ([("depth", Value.int 6), ("width", Value.int 3)]
          : List (String × Value)), hasattr exampleBuilder kv.1 = true)
      ∧ (∀ kv ∈ ([("depth", Value.int 7)] : List (String × Value)),
          hasattr exampleBuilder kv.1 = true))
    ∧ (∃ b1 b2, from_dictionary exampleBuilder
        [("depth", Value.int 6), ("width", Value.int 3)] true = .ok b1 ∧
      bindLoop true b1 [("depth", Value.int 7)] = .ok b2 ∧
      (∀ kv ∈ ([("depth", Value.int 7)] : List (String × Value)),
        getattr b2 kv.1 = some kv.2) ∧
      (∀ kv ∈ ([("depth", Value.int 6), ("width", Value.int 3)]
          : List (String × Value)),
        kv.1 ∉ ([("depth", Value.int 7)]
          : List (String × Value)).map Prod.fst → getattr b2 kv.1 = some kv.2) ∧
      (∀ k, k ∉ ([("depth", Value.int 6), ("width", Value.int 3)]
          : List (String × Value)).map Prod.fst →
        k ∉ ([("depth", Value.int 7)] : List (String × Value)).map Prod.fst →
        getattr b2 k = getattr exampleBuilder k)) :=
  ⟨⟨by decide, by decide, by decide, by decide⟩,
    c7_rebinding_overwrites_and_accumulates exampleBuilder
      [("depth", Value.int 6), ("width", Value.int 3)]
      [("depth", Value.int 7)] (by decide) (by decide) (by decide) (by decide)⟩

/-- C8: the binding routine is deterministic in its input — two
successful `from_dictionary` runs on the same mapping (each on a fresh
builder of the same class) return builders with identical attribute
values. -/
theorem c8_binding_deterministic (cls : Dict) (m : List (String × Value))
    (strict : Bool) (b1 b2 : Dict)
    (h1 : from_dictionary cls m strict = .ok b1)
    (h2 : from_dictionary cls m strict = .ok b2) :
    b1 = b2 ∧ ∀ k, getattr b1 k = getattr b2 k := by
  injection h1.symm.trans h2 with h
  exact ⟨h, fun k => by rw [h]⟩

/-- C8 witness: the concrete run on `depth = 6` is reproducible. -/
theorem c8_witness :
    (from_dictionary exampleBuilder [("depth", Value.int 6)] true
        = .ok [("depth", Value.int 6), ("width", Value.int 8)]
      ∧ from_dictionary exampleBuilder [("depth", Value.int 6)] true
        = .ok [("depth", Value.int 6), ("width", Value.int 8)])
    ∧ ([("depth", Value.int 6), ("width", Value.int 8)]
        = ([("depth", Value.int 6), ("width", Value.int 8)] : Dict)
      ∧ ∀ k, getattr [("depth", Value.int 6), ("width", Value.int 8)] k
          = getattr [("depth", Value.int 6), ("width", Value.int 8)] k) :=
  ⟨⟨by decide, by decide⟩,
    c8_binding_deterministic exampleBuilder [("depth", Value.int 6)] true
      _ _ (by decide) (by decide)⟩

/-- C9: neither entry point mutates caller-visible state:
`from_dictionary` returns the caller's heap unchanged (also on strict
failures), and `from_kwargs` — whose `pop` of the reserved `strict` key
mutates only the keyword dictionary freshly allocated for the call —
leaves every previously allocated dictionary unchanged. -/
theorem c9_no_caller_mutation (cls : Dict) (σ : Store) (dictAddr : Nat)
    (strict : Bool) (kwargs : Dict) :
    (from_dictionary_st cls σ dictAddr strict).2 = σ ∧
    (∀ j, j < σ.length →
      Store.read (from_kwargs_st cls σ kwargs).2 j = Store.read σ j) := by
  constructor
  · show (bindLoopSt strict cls (Store.read σ dictAddr) σ).2 = σ
    exact bindLoopSt_store _ _ _ _
  · intro j hj
    show Store.read
      (bindLoopSt _ cls _ (Store.write (σ ++ [kwargs]) (σ.length)
        (eraseKey (Store.read (σ ++ [kwargs]) σ.length) "strict"))).2 j
      = Store.read σ j
    rw [bindLoopSt_store,
      Store.read_write_ne _ _ _ _ (Nat.ne_of_gt hj),
      Store.read_append_lt _ _ _ hj]

/-- C9 witness: a one-dictionary heap survives a strict
`from_dictionary` failure and a `from_kwargs` call untouched. -/
theorem c9_witness :
    ((from_dictionary_st exampleBuilder [[("heads", Value.int 4)]] 0 true).2
        = [[("heads", Value.int 4)]])
    ∧ (0 < ([[("heads", Value.int 4)]] : Store).length
      ∧ Store.read (from_kwargs_st exampleBuilder [[("heads", Value.int 4)]]
          [("strict", Value.bool false), ("unknown_key", Value.int 1)]).2 0
        = Store.read [[("heads", Value.int 4)]] 0) :=
  ⟨(c9_no_caller_mutation exampleBuilder [[("heads", Value.int 4)]] 0 true
      [("strict", Value.bool false), ("unknown_key", Value.int 1)]).1,
    by decide,
    (c9_no_caller_mutation exampleBuilder [[("heads", Value.int 4)]] 0 true
      [("strict", Value.bool false), ("unknown_key", Value.int 1)]).2 0
      (by decide)⟩

/-- C10: strict mode is a single sequential validate-and-set pass in the
mapping's iteration order, not a pre-validation phase: when the loop
fails on an unknown key, its local builder (discarded by
`from_dictionary`) already holds every entry preceding the failing key,
assigned in order — the very builder a run on the prefix alone returns —
and no all-or-nothing rollback occurs. -/
theorem c10_sequential_partial_application (cls : Dict)
    (pre : List (String × Value)) (k : String) (v : Value)
    (post : List (String × Value))
    (hpre : ∀ kv ∈ pre, hasattr cls kv.1 = true)
    (hk : hasattr cls k = false) :
    bindLoop true cls (pre ++ (k, v) :: post)
      = .error (.ValueError (noParamMsg k),
          pre.foldl (fun acc kv => setattr acc kv.1 kv.2) cls) ∧
    from_dictionary cls pre true
      = .ok (pre.foldl (fun acc kv => setattr acc kv.1 kv.2) cls) := by
  have hfold := applyLenient_eq_foldl pre cls hpre
  constructor
  · rw [bindLoop_true_firstFail pre k v post cls hpre hk, hfold]
  · rw [from_dictionary_ok, ← hfold]
    exact bindLoop_true_of_known pre cls hpre

/-- C10 witness: failing on `heads` after `depth = 6`, the loop's local
builder already carries `depth = 6`. -/
theorem c10_witness :
    ((∀ kv ∈ ([("depth", Value.int 6)] : List (String × Value)),
        hasattr exampleBuilder kv.1 = true)
      ∧ hasattr exampleBuilder "heads" = false)
    ∧ (bindLoop true exampleBuilder
        ([("depth", Value.int 6)] ++ ("heads", Value.int 4)
          :: [("width", Value.int 9)])
        = .error (.ValueError (noParamMsg "heads"),
            ([("depth", Value.int 6)]
              : List (String × Value)).foldl
              (fun acc kv => setattr acc kv.1 kv.2) exampleBuilder) ∧
      from_dictionary exampleBuilder [("depth", Value.int 6)] true
        = .ok (([("depth", Value.int 6)]
            : List (String × Value)).foldl
            (fun acc kv => setattr acc kv.1 kv.2) exampleBuilder)) :=
  ⟨⟨by decide, by decide⟩,
    c10_sequential_partial_application exampleBuilder
      [("depth", Value.int 6)] "heads" (Value.int 4)
      [("width", Value.int 9)] (by decide) (by decide)⟩
